import Mathlib

/-!
Verification of the seismic reflection toolkit (`reflection/ray_tracing/src`).

The Python code computes closed-form two-way travel times for reflections from
horizontal and dipping interfaces (`raypaths.py`) and synthesizes seismogram
traces from travel times and a Ricker wavelet (`synthetic_seismograms.py`).
All numeric computation is modelled over the real numbers `ℝ`; numpy arrays of
floats become `List ℝ`, 2D arrays become `List (List ℝ)`.  Python's `int()`
truncation toward zero is modelled by `pyInt`;  `np.arange(0, stop, step)`
(for positive step) produces `ceil(stop/step)` samples `0, step, 2*step, ...`.
`np.random.randn` output is modelled as an explicit noise-array argument.
-/

namespace Seismic

/-- Python `int(x)` on a float: truncation toward zero. -/
noncomputable def pyInt (x : ℝ) : ℤ := if 0 ≤ x then ⌊x⌋ else ⌈x⌉

/-- `calculate_travel_times_horizontal` from `raypaths.py`:
`dx = receiver_x - source_x; travel_times = np.sqrt(4 * h**2 + dx**2) / v`,
applied elementwise over the receiver array. -/
noncomputable def calculate_travel_times_horizontal (source_x : ℝ)
    (receiver_x : List ℝ) (depth_at_source velocity : ℝ) : List ℝ :=
  receiver_x.map (fun rx =>
    Real.sqrt (4 * depth_at_source ^ 2 + (rx - source_x) ^ 2) / velocity)

/-- `calculate_travel_times_dipping` from `raypaths.py`:
`theta = np.radians(dip_angle)` (i.e. `dip_angle * π / 180`), then
`np.sqrt(4 * h**2 + dx**2 + 4 * h * dx * np.sin(theta)) / v` elementwise. -/
noncomputable def calculate_travel_times_dipping (source_x : ℝ)
    (receiver_x : List ℝ) (depth_at_source velocity dip_angle : ℝ) : List ℝ :=
  receiver_x.map (fun rx =>
    Real.sqrt (4 * depth_at_source ^ 2 + (rx - source_x) ^ 2 +
      4 * depth_at_source * (rx - source_x) *
        Real.sin (dip_angle * (Real.pi / 180))) / velocity)

/-- `np.arange(0, stop, step)` for positive `step`: the `⌈stop/step⌉` samples
`0, step, 2*step, ...` strictly below `stop`. -/
noncomputable def arange0 (stop step : ℝ) : List ℝ :=
  (List.range ⌈stop / step⌉₊).map (fun (i : ℕ) => (i : ℝ) * step)

/-- The elementwise Ricker amplitude from `ricker_wavelet`:
`(1 - 2 * (np.pi * frequency * t_shifted)**2) * np.exp(-(np.pi * frequency * t_shifted)**2)`. -/
noncomputable def ricker_amp (frequency t_shifted : ℝ) : ℝ :=
  (1 - 2 * (Real.pi * frequency * t_shifted) ^ 2) *
    Real.exp (-(Real.pi * frequency * t_shifted) ^ 2)

/-- `ricker_wavelet` from `synthetic_seismograms.py`: returns the pair
`(t, wavelet)` with `t = np.arange(0, duration, dt)` and the Ricker amplitude
evaluated at `t - time_shift` elementwise. -/
noncomputable def ricker_wavelet (frequency duration dt time_shift : ℝ) :
    List ℝ × List ℝ :=
  (arange0 duration dt,
    (arange0 duration dt).map (fun ti => ricker_amp frequency (ti - time_shift)))

/-- One receiver row of the zero-initialized seismogram after the loop body of
`generate_synthetic_seismogram`:
`start_idx = int(t0 / dt); end_idx = start_idx + len(wavelet);
if end_idx < n_samples: seismogram[i, start_idx:end_idx] += wavelet`.
The row has `n_samples` entries; entry `j` holds `wavelet[j - start_idx]` when
the guard holds and `start_idx ≤ j < end_idx`, else the initial `0`.  This
models the numpy slice-add for `0 ≤ start_idx` (a negative `start_idx`, i.e. a
negative travel time, would trigger Python's wrap-around indexing, which is
not modelled). -/
noncomputable def traceRow (t0 : ℝ) (wavelet : List ℝ) (dt : ℝ)
    (n_samples : ℤ) : List ℝ :=
  (List.range n_samples.toNat).map (fun (j : ℕ) =>
    if pyInt (t0 / dt) + wavelet.length < n_samples ∧
        pyInt (t0 / dt) ≤ (j:ℤ) ∧ (j:ℤ) < pyInt (t0 / dt) + wavelet.length then
      wavelet.getD ((j:ℤ) - pyInt (t0 / dt)).toNat 0
    else 0)

/-- The seismogram of `generate_synthetic_seismogram` before noise is added:
`n_samples = int(duration / dt)`, one `traceRow` per travel time. -/
noncomputable def pre_noise_seismogram (travel_times wavelet : List ℝ)
    (duration dt : ℝ) : List (List ℝ) :=
  travel_times.map (fun t0 => traceRow t0 wavelet dt (pyInt (duration / dt)))

/-- Elementwise sum of two 2D arrays (numpy `+` on equal shapes). -/
noncomputable def add2 (a b : List (List ℝ)) : List (List ℝ) :=
  List.zipWith (fun ra rb => List.zipWith (fun x y => x + y) ra rb) a b

/-- Scalar multiple of a 2D array (numpy `noise_level * noise`). -/
noncomputable def scale2 (c : ℝ) (a : List (List ℝ)) : List (List ℝ) :=
  a.map (fun r => r.map (fun x => c * x))

/-- `np.max(np.abs(a))` over a 2D array: for a nonempty array this equals the
maximum absolute value of the entries (all of which are `≥ 0`, so seeding the
fold with `0` agrees with numpy's max). -/
noncomputable def maxAbs2 (a : List (List ℝ)) : ℝ :=
  ((a.map (fun r => r.map (fun x => |x|))).flatten).foldr max 0

/-- `seismogram /= np.max(np.abs(seismogram))`, elementwise division by the
global peak absolute value. -/
noncomputable def normalize2 (a : List (List ℝ)) : List (List ℝ) :=
  a.map (fun r => r.map (fun x => x / maxAbs2 a))

/-- The seismogram of `generate_synthetic_seismogram` after the noise add but
before normalization.  `np.random.randn(*shape)` is modelled as the explicit
`noise` array argument, scaled by `noise_level` and added elementwise. -/
noncomputable def pre_normalization_seismogram (travel_times wavelet : List ℝ)
    (duration dt noise_level : ℝ) (noise : List (List ℝ)) : List (List ℝ) :=
  add2 (pre_noise_seismogram travel_times wavelet duration dt)
    (scale2 noise_level noise)

/-- `generate_synthetic_seismogram` from `synthetic_seismograms.py`: wavelet
placement per receiver, additive scaled noise, then global normalization by
the peak absolute value. -/
noncomputable def generate_synthetic_seismogram (travel_times wavelet : List ℝ)
    (duration dt noise_level : ℝ) (noise : List (List ℝ)) : List (List ℝ) :=
  normalize2 (pre_normalization_seismogram travel_times wavelet duration dt
    noise_level noise)

/-- C1: for every source position, receiver array, depth and velocity,
`calculate_travel_times_horizontal` returns one travel time per receiver,
and the entry for a receiver at `rx` is `sqrt(4*h^2 + (rx - source_x)^2) / v`.
The function is total (no input validation, no error). -/
theorem horizontal_travel_time_formula (source_x : ℝ) (receiver_x : List ℝ)
    (depth_at_source velocity : ℝ) :
    (calculate_travel_times_horizontal source_x receiver_x depth_at_source
        velocity).length = receiver_x.length ∧
    ∀ i : ℕ, (calculate_travel_times_horizontal source_x receiver_x
        depth_at_source velocity)[i]? = (receiver_x[i]?).map (fun rx =>
      Real.sqrt (4 * depth_at_source ^ 2 + (rx - source_x) ^ 2) / velocity) := by
  refine ⟨List.length_map _ _, fun i => ?_⟩
  simp [calculate_travel_times_horizontal]

/-- C2: for every source position, receiver array, depth, velocity and dip
angle in degrees, `calculate_travel_times_dipping` returns one travel time per
receiver, the entry for a receiver at `rx` being
`sqrt(4*h^2 + dx^2 + 4*h*dx*sin(theta)) / v` with `dx = rx - source_x` and
`theta` the dip angle converted to radians (`dip_angle * π / 180`). -/
theorem dipping_travel_time_formula (source_x : ℝ) (receiver_x : List ℝ)
    (depth_at_source velocity dip_angle : ℝ) :
    (calculate_travel_times_dipping source_x receiver_x depth_at_source
        velocity dip_angle).length = receiver_x.length ∧
    ∀ i : ℕ, (calculate_travel_times_dipping source_x receiver_x
        depth_at_source velocity dip_angle)[i]? = (receiver_x[i]?).map (fun rx =>
      Real.sqrt (4 * depth_at_source ^ 2 + (rx - source_x) ^ 2 +
        4 * depth_at_source * (rx - source_x) *
          Real.sin (dip_angle * (Real.pi / 180))) / velocity) := by
  refine ⟨List.length_map _ _, fun i => ?_⟩
  simp [calculate_travel_times_dipping]

/-- C3: with dip angle 0, `calculate_travel_times_dipping` returns exactly the
same travel times as `calculate_travel_times_horizontal` on the same inputs:
`sin 0 = 0` kills the cross term. -/
theorem dipping_zero_eq_horizontal (source_x : ℝ) (receiver_x : List ℝ)
    (depth_at_source velocity : ℝ) :
    calculate_travel_times_dipping source_x receiver_x depth_at_source
        velocity 0 =
      calculate_travel_times_horizontal source_x receiver_x depth_at_source
        velocity := by
  simp [calculate_travel_times_dipping, calculate_travel_times_horizontal]

/-- C9: for fixed depth `h > 0` and velocity `v > 0`, the horizontal travel
time is monotonically non-decreasing in the absolute offset: for two receivers
with `|rx1 - source_x| ≤ |rx2 - source_x|`, the first travel time in the
returned array is at most the second. -/
theorem horizontal_monotone_in_offset (source_x depth_at_source velocity
    rx1 rx2 : ℝ) (hh : 0 < depth_at_source) (hv : 0 < velocity)
    (hle : |rx1 - source_x| ≤ |rx2 - source_x|) :
    (calculate_travel_times_horizontal source_x [rx1, rx2] depth_at_source
        velocity).getD 0 0 ≤
      (calculate_travel_times_horizontal source_x [rx1, rx2] depth_at_source
        velocity).getD 1 0 := by
  simp only [calculate_travel_times_horizontal, List.map_cons, List.map_nil,
    List.getD_cons_zero, List.getD_cons_succ]
  apply div_le_div_of_nonneg_right ?_ hv.le
  apply Real.sqrt_le_sqrt
  nlinarith [sq_abs (rx1 - source_x), sq_abs (rx2 - source_x),
    abs_nonneg (rx1 - source_x), abs_nonneg (rx2 - source_x)]

/-- Witness for C9 at source 0, receivers 30 and 40, depth 50, velocity 2000. -/
theorem horizontal_monotone_in_offset_witness :
    (calculate_travel_times_horizontal 0 [30, 40] 50 2000).getD 0 0 ≤
      (calculate_travel_times_horizontal 0 [30, 40] 50 2000).getD 1 0 :=
  horizontal_monotone_in_offset 0 50 2000 30 40 (by norm_num) (by norm_num)
    (by rw [sub_zero, sub_zero]; norm_num)

/-- C10: for fixed geometry and `v > 0`, `k > 0`, the travel times computed at
velocity `k * v` are exactly the travel times at velocity `v` divided by `k`
(so doubling the velocity halves every travel time). -/
theorem horizontal_velocity_scaling (source_x : ℝ) (receiver_x : List ℝ)
    (depth_at_source velocity k : ℝ) (hv : 0 < velocity) (hk : 0 < k) :
    calculate_travel_times_horizontal source_x receiver_x depth_at_source
        (k * velocity) =
      (calculate_travel_times_horizontal source_x receiver_x depth_at_source
        velocity).map (fun t => t / k) := by
  simp only [calculate_travel_times_horizontal, List.map_map]
  congr 1
  funext rx
  simp only [Function.comp_apply]
  rw [div_div, mul_comm k velocity]

/-- Witness for C10: doubling the velocity 2000 halves the travel times for a
receiver at 100, source 0, depth 50. -/
theorem horizontal_velocity_scaling_witness :
    calculate_travel_times_horizontal 0 [100] 50 (2 * 2000) =
      (calculate_travel_times_horizontal 0 [100] 50 2000).map (fun t => t / 2) :=
  horizontal_velocity_scaling 0 [100] 50 2000 2 (by norm_num) (by norm_num)

/-- C4 counterexample: with source 0, receivers `[0, 100, 200]`, depth 50,
velocity 2000, the third travel time is `sqrt(50000)/2000 ≈ 0.1118`, which
exceeds the claimed `≈ 0.0707` by more than `0.01`, so the claimed triple
`[0.05, 0.0570, 0.0707]` does not approximate the code's output. -/
theorem example_travel_times_counterexample :
    (calculate_travel_times_horizontal 0 [0, 100, 200] 50 2000).getD 2 0 =
      Real.sqrt 50000 / 2000 ∧
    (0.0707 : ℝ) + 0.01 < Real.sqrt 50000 / 2000 := by
  constructor
  · simp only [calculate_travel_times_horizontal, List.map_cons, List.map_nil,
      List.getD_cons_zero, List.getD_cons_succ]
    norm_num
  · rw [lt_div_iff (by norm_num : (0:ℝ) < 2000)]
    rw [show ((0.0707:ℝ) + 0.01) * 2000 = 161.4 by norm_num]
    rw [show (161.4:ℝ) = Real.sqrt (161.4 ^ 2) by
      rw [Real.sqrt_sq (by norm_num)]]
    apply Real.sqrt_lt_sqrt (by positivity)
    norm_num

/-- C4 amended: with source 0, receivers `[0, 100, 200]`, depth 50, velocity
2000, the travel times are `0.05` exactly, `sqrt(20000)/2000 ≈ 0.0707` and
`sqrt(50000)/2000 ≈ 0.1118` (each within `0.0001` of the stated decimal). -/
theorem example_travel_times_amended :
    (calculate_travel_times_horizontal 0 [0, 100, 200] 50 2000).getD 0 0 =
      0.05 ∧
    |(calculate_travel_times_horizontal 0 [0, 100, 200] 50 2000).getD 1 0 -
      0.0707| < 0.0001 ∧
    |(calculate_travel_times_horizontal 0 [0, 100, 200] 50 2000).getD 2 0 -
      0.1118| < 0.0001 := by
  simp only [calculate_travel_times_horizontal, List.map_cons, List.map_nil,
    List.getD_cons_zero, List.getD_cons_succ]
  refine ⟨?_, ?_, ?_⟩
  · rw [show (4 * (50:ℝ) ^ 2 + (0 - 0) ^ 2) = 100 ^ 2 by norm_num,
      Real.sqrt_sq (by norm_num)]
    norm_num
  · rw [show (4 * (50:ℝ) ^ 2 + (100 - 0) ^ 2) = 20000 by norm_num, abs_lt]
    constructor
    · rw [lt_sub_iff_add_lt, lt_div_iff (by norm_num : (0:ℝ) < 2000)]
      rw [show ((-0.0001:ℝ) + 0.0707) * 2000 = 141.2 by norm_num]
      rw [show (141.2:ℝ) = Real.sqrt (141.2 ^ 2) by
        rw [Real.sqrt_sq (by norm_num)]]
      apply Real.sqrt_lt_sqrt (by positivity)
      norm_num
    · rw [sub_lt_iff_lt_add, div_lt_iff (by norm_num : (0:ℝ) < 2000)]
      rw [show ((0.0001:ℝ) + 0.0707) * 2000 = 141.6 by norm_num]
      rw [show (141.6:ℝ) = Real.sqrt (141.6 ^ 2) by
        rw [Real.sqrt_sq (by norm_num)]]
      apply Real.sqrt_lt_sqrt (by positivity)
      norm_num
  · rw [show (4 * (50:ℝ) ^ 2 + (200 - 0) ^ 2) = 50000 by norm_num, abs_lt]
    constructor
    · rw [lt_sub_iff_add_lt, lt_div_iff (by norm_num : (0:ℝ) < 2000)]
      rw [show ((-0.0001:ℝ) + 0.1118) * 2000 = 223.4 by norm_num]
      rw [show (223.4:ℝ) = Real.sqrt (223.4 ^ 2) by
        rw [Real.sqrt_sq (by norm_num)]]
      apply Real.sqrt_lt_sqrt (by positivity)
      norm_num
    · rw [sub_lt_iff_lt_add, div_lt_iff (by norm_num : (0:ℝ) < 2000)]
      rw [show ((0.0001:ℝ) + 0.1118) * 2000 = 223.8 by norm_num]
      rw [show (223.8:ℝ) = Real.sqrt (223.8 ^ 2) by
        rw [Real.sqrt_sq (by norm_num)]]
      apply Real.sqrt_lt_sqrt (by positivity)
      norm_num

/-- `pyInt` agrees with the floor on nonnegative inputs, pinned by bounds. -/
lemma pyInt_eq (x : ℝ) (n : ℤ) (h0 : (0:ℝ) ≤ x) (h1 : (n:ℝ) ≤ x)
    (h2 : x < n + 1) : pyInt x = n := by
  unfold pyInt
  rw [if_pos h0, Int.floor_eq_iff]
  exact ⟨by exact_mod_cast h1, by exact_mod_cast h2⟩

/-- The Ricker amplitude never exceeds 1. -/
lemma ricker_amp_le_one (frequency t_shifted : ℝ) :
    ricker_amp frequency t_shifted ≤ 1 := by
  unfold ricker_amp
  have h1 : 0 < Real.exp (-(Real.pi * frequency * t_shifted) ^ 2) :=
    Real.exp_pos _
  have h2 : Real.exp (-(Real.pi * frequency * t_shifted) ^ 2) ≤ 1 :=
    Real.exp_le_one_iff.mpr (neg_nonpos.mpr (sq_nonneg _))
  nlinarith [sq_nonneg (Real.pi * frequency * t_shifted),
    mul_nonneg (sq_nonneg (Real.pi * frequency * t_shifted)) h1.le]

/-- At zero shifted time the Ricker amplitude is exactly 1. -/
lemma ricker_amp_zero (frequency : ℝ) : ricker_amp frequency 0 = 1 := by
  simp [ricker_amp]

/-- C5 counterexample: with frequency 1, duration 1, `dt = 1/2` and
`time_shift = 1/4` (a shift that is not a sample time), the wavelet array
never attains the value 1 — both samples are negative — so the claim that the
wavelet attains its maximum 1.0 at `t = time_shift` fails for this input. -/
theorem ricker_peak_counterexample :
    (1:ℝ) ∉ (ricker_wavelet 1 1 (1/2) (1/4)).2 := by
  have hpi : (8:ℝ) < Real.pi ^ 2 := by nlinarith [Real.pi_gt_three]
  have hneg : ∀ s : ℝ, s ^ 2 = 1/16 → ricker_amp 1 s < 0 := by
    intro s hs
    unfold ricker_amp
    have hsq : (Real.pi * 1 * s) ^ 2 = Real.pi ^ 2 / 16 := by
      rw [mul_one, mul_pow, hs]; ring
    have h1 : 1 - 2 * (Real.pi * 1 * s) ^ 2 < 0 := by rw [hsq]; nlinarith
    exact mul_neg_of_neg_of_pos h1 (Real.exp_pos _)
  have harange : arange0 1 (1/2) = [0, 1/2] := by
    have hceil : ⌈(1:ℝ) / (1/2)⌉₊ = 2 := by norm_num
    simp only [arange0, hceil]
    norm_num [List.range_succ]
  intro hmem
  simp only [ricker_wavelet, harange, List.map_cons, List.map_nil,
    List.mem_cons, List.not_mem_nil, or_false] at hmem
  rcases hmem with h | h
  · have := hneg (0 - 1/4) (by norm_num)
    rw [← h] at this; norm_num at this
  · have := hneg (1/2 - 1/4) (by norm_num)
    rw [← h] at this; norm_num at this

/-- C5 amended: when the time shift lies on the sample grid, i.e.
`time_shift = k * dt` with `k * dt < duration` and `dt > 0`, the wavelet array
attains the value 1 at sample index `k` (the sample at time `time_shift`),
and every entry of the wavelet array is at most 1, so 1 is its maximum. -/
theorem ricker_peak_amended (frequency duration dt time_shift : ℝ) (k : ℕ)
    (hdt : 0 < dt) (hts : time_shift = (k:ℝ) * dt)
    (hlt : (k:ℝ) * dt < duration) :
    ((ricker_wavelet frequency duration dt time_shift).2)[k]? = some 1 ∧
    ∀ x ∈ (ricker_wavelet frequency duration dt time_shift).2, x ≤ 1 := by
  constructor
  · have hk : k < ⌈duration / dt⌉₊ := by
      rw [Nat.lt_ceil]
      rw [lt_div_iff hdt]
      exact hlt
    have h1 : (List.range ⌈duration / dt⌉₊)[k]? = some k := by simp [hk]
    have h2 : (arange0 duration dt)[k]? = some ((k:ℝ) * dt) := by
      rw [arange0, List.getElem?_map, h1]; rfl
    simp only [ricker_wavelet]
    rw [List.getElem?_map, h2]
    simp [hts, ricker_amp_zero, sub_self]
  · intro x hx
    simp only [ricker_wavelet, List.mem_map] at hx
    obtain ⟨ti, _, rfl⟩ := hx
    exact ricker_amp_le_one _ _

/-- Witness for the amended C5: frequency 25, duration 1, `dt = 1/10`,
`time_shift = 2 * (1/10)` (sample index 2). -/
theorem ricker_peak_amended_witness :
    ((ricker_wavelet 25 1 (1/10) ((2:ℕ) * (1/10))).2)[2]? = some 1 ∧
    ∀ x ∈ (ricker_wavelet 25 1 (1/10) ((2:ℕ) * (1/10))).2, x ≤ 1 :=
  ricker_peak_amended 25 1 (1/10) ((2:ℕ) * (1/10)) 2 (by norm_num) rfl
    (by norm_num)

/-- `pyInt` is nonnegative on nonnegative inputs. -/
lemma pyInt_nonneg (x : ℝ) (h : 0 ≤ x) : 0 ≤ pyInt x := by
  unfold pyInt
  rw [if_pos h]
  exact Int.floor_nonneg.mpr h

/-- Entry `j` of a `traceRow`, for an in-range sample index. -/
lemma traceRow_getD (t0 : ℝ) (wavelet : List ℝ) (dt : ℝ) (n : ℤ) (j : ℕ)
    (hj : (j:ℤ) < n) :
    (traceRow t0 wavelet dt n).getD j 0 =
      if pyInt (t0 / dt) + wavelet.length < n ∧ pyInt (t0 / dt) ≤ (j:ℤ) ∧
          (j:ℤ) < pyInt (t0 / dt) + wavelet.length then
        wavelet.getD ((j:ℤ) - pyInt (t0 / dt)).toNat 0
      else 0 := by
  unfold traceRow
  rw [List.getD_eq_getElem?_getD, List.getElem?_map]
  have hj' : j < n.toNat := by omega
  simp [hj']

/-- Row `i` of the pre-noise seismogram is the `traceRow` of travel time `t0`. -/
lemma pre_noise_row (travel_times wavelet : List ℝ) (duration dt t0 : ℝ)
    (i : ℕ) (ht0 : travel_times[i]? = some t0) :
    (pre_noise_seismogram travel_times wavelet duration dt).getD i [] =
      traceRow t0 wavelet dt (pyInt (duration / dt)) := by
  rw [pre_noise_seismogram, List.getD_eq_getElem?_getD, List.getElem?_map, ht0]
  rfl

/-- C6 counterexample: travel time `0.17`, wavelet `[1]`, duration 1,
`dt = 0.1`.  Then `t0/dt = 1.7`, whose nearest sample index is 2, but the code
computes `int(1.7) = 1`: the pre-noise trace holds the wavelet value 1 at
index 1 and 0 at index 2, so the wavelet is not written at `round(t0/dt)`. -/
theorem wavelet_placement_counterexample :
    ((pre_noise_seismogram [17/100] [1] 1 (1/10)).getD 0 []).getD 1 0 = 1 ∧
    ((pre_noise_seismogram [17/100] [1] 1 (1/10)).getD 0 []).getD 2 0 = 0 := by
  have hs : pyInt ((17/100 : ℝ) / (1/10)) = 1 :=
    pyInt_eq _ 1 (by norm_num) (by norm_num) (by norm_num)
  have hn : pyInt ((1:ℝ) / (1/10)) = 10 :=
    pyInt_eq _ 10 (by norm_num) (by norm_num) (by norm_num)
  have hrow := pre_noise_row [17/100] [1] 1 (1/10) (17/100) 0 rfl
  rw [hrow, hn]
  constructor
  · rw [traceRow_getD _ _ _ _ 1 (by norm_num), hs]
    norm_num
  · rw [traceRow_getD _ _ _ _ 2 (by norm_num), hs]
    norm_num

/-- C6 amended: for receiver `i` with travel time `t0`, when the start index
`int(t0/dt)` is nonnegative and the wavelet fits
(`start + len(wavelet) < n_samples`), the pre-noise trace holds the full
wavelet starting at sample index `int(t0/dt)` — the travel time is truncated,
not rounded to the nearest sample — and, the trace having started as zeros
with a single additive write, the value there is exactly the wavelet entry. -/
theorem wavelet_placement_amended (travel_times wavelet : List ℝ)
    (duration dt t0 : ℝ) (i k : ℕ)
    (ht0 : travel_times[i]? = some t0)
    (hstart : 0 ≤ pyInt (t0 / dt))
    (hfit : pyInt (t0 / dt) + wavelet.length < pyInt (duration / dt))
    (hk : k < wavelet.length) :
    ((pre_noise_seismogram travel_times wavelet duration dt).getD i []).getD
        ((pyInt (t0 / dt)).toNat + k) 0 = wavelet.getD k 0 := by
  rw [pre_noise_row travel_times wavelet duration dt t0 i ht0]
  have hj : ((((pyInt (t0 / dt)).toNat + k : ℕ)):ℤ) < pyInt (duration / dt) := by
    omega
  rw [traceRow_getD _ _ _ _ _ hj]
  rw [if_pos ⟨hfit, by omega, by omega⟩]
  congr 1
  omega

/-- Witness for the amended C6: travel time `0.3`, wavelet `[5, 7]`,
duration 1, `dt = 0.1`; the second wavelet entry lands at sample index 4. -/
theorem wavelet_placement_amended_witness :
    ((pre_noise_seismogram [3/10] [5, 7] 1 (1/10)).getD 0 []).getD
        ((pyInt ((3/10 : ℝ) / (1/10))).toNat + 1) 0 =
      ([5, 7] : List ℝ).getD 1 0 :=
  wavelet_placement_amended [3/10] [5, 7] 1 (1/10) (3/10) 0 1 rfl
    (by rw [pyInt_eq ((3/10 : ℝ) / (1/10)) 3 (by norm_num) (by norm_num)
      (by norm_num)]; norm_num)
    (by
      rw [pyInt_eq ((3/10 : ℝ) / (1/10)) 3 (by norm_num) (by norm_num)
          (by norm_num),
        pyInt_eq ((1:ℝ) / (1/10)) 10 (by norm_num) (by norm_num) (by norm_num)]
      norm_num)
    (by norm_num)

/-- C7 counterexample: travel time `0.5`, a 5-sample wavelet, duration 1,
`dt = 0.1`: `n_samples = 10`, `start_idx = 5`, `end_idx = 10 = n_samples`.
The wavelet would fit exactly (`start + len = n_samples` is in bounds), yet
the guard `end_idx < n_samples` fails and the write is dropped: the whole
pre-noise trace is zeros, contradicting "skipped only if greater than". -/
theorem wavelet_skip_counterexample :
    (pre_noise_seismogram [1/2] [1, 1, 1, 1, 1] 1 (1/10)).getD 0 [] =
      List.replicate 10 0 := by
  have hs : pyInt ((1/2 : ℝ) / (1/10)) = 5 :=
    pyInt_eq _ 5 (by norm_num) (by norm_num) (by norm_num)
  have hn : pyInt ((1:ℝ) / (1/10)) = 10 :=
    pyInt_eq _ 10 (by norm_num) (by norm_num) (by norm_num)
  rw [pre_noise_row [1/2] [1, 1, 1, 1, 1] 1 (1/10) (1/2) 0 rfl, hn]
  unfold traceRow
  rw [hs]
  norm_num
  rfl

/-- C7 amended: for a receiver with travel time `t0 ≥ 0` and `dt > 0`, the
pre-noise trace always has exactly `n_samples = int(duration/dt)` entries (no
out-of-bounds write can enlarge it); the write is dropped — the trace is left
all zeros — as soon as `start + len(wavelet) ≥ n_samples` (not only when
strictly greater); and when `start + len(wavelet) < n_samples` the start index
is nonnegative and every written index lies strictly below `n_samples`, so
every write is in bounds. -/
theorem wavelet_skip_amended (travel_times wavelet : List ℝ)
    (duration dt t0 : ℝ) (i : ℕ)
    (ht0 : travel_times[i]? = some t0) (hdt : 0 < dt) (ht0n : 0 ≤ t0) :
    ((pre_noise_seismogram travel_times wavelet duration dt).getD i []).length
        = (pyInt (duration / dt)).toNat ∧
    (pyInt (duration / dt) ≤ pyInt (t0 / dt) + wavelet.length →
      (pre_noise_seismogram travel_times wavelet duration dt).getD i [] =
        List.replicate (pyInt (duration / dt)).toNat 0) ∧
    (pyInt (t0 / dt) + wavelet.length < pyInt (duration / dt) →
      0 ≤ pyInt (t0 / dt) ∧
      (pyInt (t0 / dt)).toNat + wavelet.length < (pyInt (duration / dt)).toNat)
    := by
  have hstart : 0 ≤ pyInt (t0 / dt) :=
    pyInt_nonneg _ (div_nonneg ht0n hdt.le)
  rw [pre_noise_row travel_times wavelet duration dt t0 i ht0]
  refine ⟨?_, ?_, fun hfit => ⟨hstart, by omega⟩⟩
  · unfold traceRow
    rw [List.length_map, List.length_range]
  · intro hskip
    unfold traceRow
    have : ∀ j : ℕ, ¬(pyInt (t0 / dt) + (wavelet.length:ℤ) <
        pyInt (duration / dt) ∧ pyInt (t0 / dt) ≤ (j:ℤ) ∧
        (j:ℤ) < pyInt (t0 / dt) + wavelet.length) := by
      intro j hc
      omega
    rw [List.map_congr_left (fun j _ => if_neg (this j))]
    simp

/-- Witness for the amended C7: travel time `0.5`, a 5-sample wavelet,
duration 1, `dt = 0.1`. -/
theorem wavelet_skip_amended_witness :
    ((pre_noise_seismogram [1/2] [1, 1, 1, 1, 1] 1 (1/10)).getD 0 []).length
        = (pyInt ((1:ℝ) / (1/10))).toNat ∧
    (pyInt ((1:ℝ) / (1/10)) ≤ pyInt ((1/2 : ℝ) / (1/10)) +
        ([1, 1, 1, 1, 1] : List ℝ).length →
      (pre_noise_seismogram [1/2] [1, 1, 1, 1, 1] 1 (1/10)).getD 0 [] =
        List.replicate (pyInt ((1:ℝ) / (1/10))).toNat 0) ∧
    (pyInt ((1/2 : ℝ) / (1/10)) + ([1, 1, 1, 1, 1] : List ℝ).length <
        pyInt ((1:ℝ) / (1/10)) →
      0 ≤ pyInt ((1/2 : ℝ) / (1/10)) ∧
      (pyInt ((1/2 : ℝ) / (1/10))).toNat + ([1, 1, 1, 1, 1] : List ℝ).length <
        (pyInt ((1:ℝ) / (1/10))).toNat) :=
  wavelet_skip_amended [1/2] [1, 1, 1, 1, 1] 1 (1/10) (1/2) 0 rfl
    (by norm_num) (by norm_num)

/-- Every member of a list is at most its `foldr max 0`. -/
lemma le_foldr_max (l : List ℝ) (y : ℝ) (hy : y ∈ l) : y ≤ l.foldr max 0 := by
  induction l with
  | nil => cases hy
  | cons a t ih =>
    rcases List.mem_cons.mp hy with h | h
    · rw [h, List.foldr_cons]; exact le_max_left _ _
    · exact (ih h).trans (le_max_right _ _)

/-- A nonzero `foldr max 0` is attained by a member of the list. -/
lemma foldr_max_mem (l : List ℝ) (h : l.foldr max 0 ≠ 0) :
    l.foldr max 0 ∈ l := by
  induction l with
  | nil => simp at h
  | cons a t ih =>
    rw [List.foldr_cons] at h ⊢
    rcases le_total a (t.foldr max 0) with hle | hle
    · rw [max_eq_right hle] at h ⊢
      exact List.mem_cons_of_mem _ (ih h)
    · rw [max_eq_left hle]
      exact List.mem_cons_self _ _

/-- Membership in the flattened absolute-value array backing `maxAbs2`. -/
lemma mem_absFlatten_iff (a : List (List ℝ)) (z : ℝ) :
    z ∈ (a.map (fun r => r.map (fun x => |x|))).flatten ↔
      ∃ row ∈ a, ∃ x ∈ row, z = |x| := by
  constructor
  · intro hz
    rw [List.mem_flatten] at hz
    obtain ⟨l, hl, hzl⟩ := hz
    rw [List.mem_map] at hl
    obtain ⟨row, hrow, rfl⟩ := hl
    rw [List.mem_map] at hzl
    obtain ⟨x, hx, rfl⟩ := hzl
    exact ⟨row, hrow, x, hx, rfl⟩
  · rintro ⟨row, hrow, x, hx, rfl⟩
    rw [List.mem_flatten]
    exact ⟨row.map (fun x => |x|), List.mem_map_of_mem _ hrow,
      List.mem_map_of_mem _ hx⟩

/-- Every entry's absolute value is at most the global peak `maxAbs2`. -/
lemma abs_le_maxAbs2 (a : List (List ℝ)) (row : List ℝ) (x : ℝ)
    (hrow : row ∈ a) (hx : x ∈ row) : |x| ≤ maxAbs2 a :=
  le_foldr_max _ _ ((mem_absFlatten_iff a |x|).mpr ⟨row, hrow, x, hx, rfl⟩)

/-- A nonzero entry forces a positive global peak. -/
lemma maxAbs2_pos (a : List (List ℝ)) (row : List ℝ) (x : ℝ)
    (hrow : row ∈ a) (hx : x ∈ row) (hx0 : x ≠ 0) : 0 < maxAbs2 a :=
  lt_of_lt_of_le (abs_pos.mpr hx0) (abs_le_maxAbs2 a row x hrow hx)

/-- A positive global peak is attained by some entry. -/
lemma maxAbs2_attained (a : List (List ℝ)) (hpos : 0 < maxAbs2 a) :
    ∃ row ∈ a, ∃ x ∈ row, |x| = maxAbs2 a := by
  have hmem : maxAbs2 a ∈ (a.map (fun r => r.map (fun x => |x|))).flatten :=
    foldr_max_mem _ hpos.ne'
  obtain ⟨row, hrow, x, hx, hz⟩ := (mem_absFlatten_iff a _).mp hmem
  exact ⟨row, hrow, x, hx, hz.symm⟩

/-- Peak normalization of an array with at least one nonzero entry keeps every
entry in `[-1, 1]` and sends some entry to absolute value exactly 1. -/
lemma normalize2_bounds (a : List (List ℝ))
    (h : ∃ row ∈ a, ∃ x ∈ row, x ≠ 0) :
    (∀ row ∈ normalize2 a, ∀ y ∈ row, |y| ≤ 1) ∧
    (∃ row ∈ normalize2 a, ∃ y ∈ row, |y| = 1) := by
  obtain ⟨row0, hrow0, x0, hx0, hx0ne⟩ := h
  have hM : 0 < maxAbs2 a := maxAbs2_pos a row0 x0 hrow0 hx0 hx0ne
  constructor
  · intro row hrow y hy
    rw [normalize2, List.mem_map] at hrow
    obtain ⟨r, hr, rfl⟩ := hrow
    rw [List.mem_map] at hy
    obtain ⟨x, hx, rfl⟩ := hy
    rw [abs_div, abs_of_pos hM, div_le_one hM]
    exact abs_le_maxAbs2 a r x hr hx
  · obtain ⟨row, hrow, x, hx, hxeq⟩ := maxAbs2_attained a hM
    refine ⟨row.map (fun z => z / maxAbs2 a), ?_, x / maxAbs2 a, ?_, ?_⟩
    · rw [normalize2]
      exact List.mem_map_of_mem _ hrow
    · exact List.mem_map_of_mem _ hx
    · rw [abs_div, abs_of_pos hM, hxeq, div_self hM.ne.symm]

/-- C8: whenever the pre-normalization seismogram (wavelet placements plus
scaled noise) has at least one nonzero sample, every entry of the array
returned by `generate_synthetic_seismogram` lies in `[-1, 1]` (absolute value
at most 1), and some entry has absolute value exactly 1. -/
theorem seismogram_normalized_bounds (travel_times wavelet : List ℝ)
    (duration dt noise_level : ℝ) (noise : List (List ℝ))
    (h : ∃ row ∈ pre_normalization_seismogram travel_times wavelet duration dt
      noise_level noise, ∃ x ∈ row, x ≠ 0) :
    (∀ row ∈ generate_synthetic_seismogram travel_times wavelet duration dt
      noise_level noise, ∀ y ∈ row, |y| ≤ 1) ∧
    (∃ row ∈ generate_synthetic_seismogram travel_times wavelet duration dt
      noise_level noise, ∃ y ∈ row, |y| = 1) :=
  normalize2_bounds _ h

/-- Witness for C8: one receiver with travel time 0, empty wavelet, duration
and `dt` equal to 1, noise level 1 and noise sample 2: the pre-normalization
seismogram is `[[2]]`, which is nonzero. -/
theorem seismogram_normalized_bounds_witness :
    (∀ row ∈ generate_synthetic_seismogram [0] [] 1 1 1 [[2]],
      ∀ y ∈ row, |y| ≤ 1) ∧
    (∃ row ∈ generate_synthetic_seismogram [0] [] 1 1 1 [[2]],
      ∃ y ∈ row, |y| = 1) := by
  apply seismogram_normalized_bounds
  have h1 : pyInt ((1:ℝ) / 1) = 1 :=
    pyInt_eq _ 1 (by norm_num) (by norm_num) (by norm_num)
  have h0 : pyInt ((0:ℝ) / 1) = 0 :=
    pyInt_eq _ 0 (by norm_num) (by norm_num) (by norm_num)
  have htr : traceRow 0 [] 1 (1:ℤ) = [0] := by
    unfold traceRow
    rw [h0]
    simp [List.range_succ]
  have hpre : pre_normalization_seismogram [0] [] 1 1 1 [[2]] = [[2]] := by
    unfold pre_normalization_seismogram pre_noise_seismogram
    rw [h1]
    simp [htr, add2, scale2]
  refine ⟨[2], ?_, 2, ?_, by norm_num⟩
  · rw [hpre]
    exact List.mem_cons_self _ _
  · exact List.mem_cons_self _ _

end Seismic
